import Mathlib

/-!
Shallow embedding of `src/docker/ctakes/app.py` (LucidReview): a clinical
NLP post-processing service.  Text is modelled as `List Char`; Python's
`str.lower` as per-character `Char.toLower`; Python `float` values as `Rat`
(exact where the claims observe them); the external medspaCy pipeline as a
parameter returning labelled spans (per the spec it is an out-of-scope
collaborator with interface `analyze(text) -> spans`).
-/

namespace CTakes

/-- `startsWithL h n`: `n` is a prefix of `h` (character-wise equality). -/
def startsWithL : List Char → List Char → Bool
  | _, [] => true
  | [], _ :: _ => false
  | x :: xs, y :: ys => x == y && startsWithL xs ys

/-- `hasSub h n`: `n` occurs as a contiguous substring of `h`.
Embeds Python's `needle in haystack`. -/
def hasSub : List Char → List Char → Bool
  | [], n => n.isEmpty
  | x :: xs, n => startsWithL (x :: xs) n || hasSub xs n

/-- Python slice `t[a:b]` for `a ≤ b` (both clamped to the list length). -/
def sliceT (t : List Char) (a b : Nat) : List Char := (t.take b).drop a

/-- The lower-cased window `t[max(0, o-w):o].lower()` used by the context
detectors.  In `Nat`, `o - w` is truncated subtraction, i.e. `max 0 (o-w)`. -/
def lowerWindow (t : List Char) (o w : Nat) : List Char :=
  (sliceT t (o - w) o).map Char.toLower

/-- Source `NEGATION_CUES` (app.py lines 119-122), in order. -/
def NEGATION_CUES : List String :=
  ["no ", "not ", "denies ", "denied ", "without ", "negative ", "absent ",
   "no evidence of", "ruled out", "rules out", "unlikely"]

/-- Source `detect_assertion` (app.py lines 125-134).  The `entity_text`
argument is accepted and, as in the source, never read. -/
def detect_assertion (text : List Char) (span_start : Nat)
    (entity_text : List Char) : String :=
  let preceding_text := lowerWindow text span_start 60
  if NEGATION_CUES.any (fun cue => hasSub preceding_text cue.toList)
  then "negated" else "affirmed"

/-- Source `history_cues` (app.py line 142). -/
def history_cues : List String :=
  ["history of", "h/o", "previous", "prior", "past", "former"]

/-- Source `hypothetical_cues` (app.py line 147). -/
def hypothetical_cues : List String :=
  ["if ", "should ", "consider ", "possible ", "suspect"]

/-- Source `detect_temporality` (app.py lines 137-152): historical cues are
checked first over the 80-character window, then hypothetical cues,
default `current`. -/
def detect_temporality (text : List Char) (span_start : Nat) : String :=
  let preceding := lowerWindow text span_start 80
  if history_cues.any (fun cue => hasSub preceding cue.toList) then "historical"
  else if hypothetical_cues.any (fun cue => hasSub preceding cue.toList) then
    "hypothetical"
  else "current"

/-! ## Regex engine

The fragment of Python `re` used by `LAB_PATTERNS`: literals, character
classes with counted greedy repetition (`\d{m,n}`, `[Ss]`), unbounded greedy
class repetition (`\s*`, `[:\s]*`), concatenation, ordered alternation,
greedy option (`(?:...)?`) and a single capturing group.  `mats` lists every
way the expression can match at a position, in Python's backtracking
preference order (greedy repetitions longest first, alternation left first);
the head of the list is the match Python reports. -/

inductive RE where
  | lit : List Char → RE
  | cls : (Char → Bool) → Nat → Nat → RE
  | clsStar : (Char → Bool) → RE
  | seq : RE → RE → RE
  | alt : RE → RE → RE
  | opt : RE → RE
  | grp : RE → RE

/-- First capture wins (Python numbers groups left to right; every pattern
here has exactly one group). -/
def capJoin : Option (Nat × Nat) → Option (Nat × Nat) → Option (Nat × Nat)
  | some g, _ => some g
  | none, c => c

/-- All candidate matches of `r` against `t` starting at `pos`, each as
`(end position, capture span)`, in backtracking preference order. -/
def mats : RE → List Char → Nat → List (Nat × Option (Nat × Nat))
  | .lit s, t, pos =>
      if sliceT t pos (pos + s.length) == s then [(pos + s.length, none)] else []
  | .cls p lo hi, t, pos =>
      let avail := (((t.drop pos).take hi).takeWhile p).length
      (List.range (avail + 1 - lo)).map (fun i => (pos + (avail - i), none))
  | .clsStar p, t, pos =>
      let avail := ((t.drop pos).takeWhile p).length
      (List.range (avail + 1)).map (fun i => (pos + (avail - i), none))
  | .seq a b, t, pos =>
      (mats a t pos).flatMap (fun pc =>
        (mats b t pc.1).map (fun qc => (qc.1, capJoin pc.2 qc.2)))
  | .alt a b, t, pos => mats a t pos ++ mats b t pos
  | .opt a, t, pos => mats a t pos ++ [(pos, none)]
  | .grp a, t, pos => (mats a t pos).map (fun pc => (pc.1, some (pos, pc.1)))

/-- One step of `re.finditer`'s scan: emit the leftmost match at or after
`pos` and continue after it (Python advances one character past a
zero-width match). -/
def finditerAux (r : RE) (t : List Char) : Nat → Nat → List (Nat × Nat × Option (Nat × Nat))
  | _, 0 => []
  | pos, fuel + 1 =>
      if pos > t.length then []
      else
        match (mats r t pos).head? with
        | some (e, c) =>
            (pos, e, c) :: finditerAux r t (if pos < e then e else pos + 1) fuel
        | none => finditerAux r t (pos + 1) fuel

/-- Embeds `re.finditer(pattern, text)`: the non-overlapping matches, left to
right, each as `(start, end, capture span)`. -/
def finditer (r : RE) (t : List Char) : List (Nat × Nat × Option (Nat × Nat)) :=
  finditerAux r t 0 (t.length + 1)

/-! ## The nine `LAB_PATTERNS` (app.py lines 106-116) -/

/-- Python `\d` restricted to ASCII (the only digits the patterns meet). -/
def isDigitC (c : Char) : Bool := c.isDigit

/-- Python `\s` (ASCII range). -/
def isSpaceC (c : Char) : Bool :=
  c == ' ' || c == '\t' || c == '\n' || c == '\r' || c == '\x0b' || c == '\x0c'

/-- The class `[:\s]`. -/
def isColonSpace (c : Char) : Bool := c == ':' || isSpaceC c

/-- A two-letter class such as `[Ss]`. -/
def oneOf (a b : Char) : Char → Bool := fun c => c == a || c == b

/-- `\d{lo,hi}`, the body shape of most capture groups. -/
def digBody (lo hi : Nat) : RE := .cls isDigitC lo hi

/-- `\d{a1,a2}\.\d{b1,b2}`, the pH/temperature capture body. -/
def dotBody (a1 a2 b1 b2 : Nat) : RE :=
  .seq (digBody a1 a2) (.seq (.lit ['.']) (digBody b1 b2))

/-- `\d{2,3}/\d{2,3}`, the blood-pressure capture body. -/
def slashBody : RE := .seq (digBody 2 3) (.seq (.lit ['/']) (digBody 2 3))

/-- `(?:O2\s*[Ss]at|SpO2|SaO2)[:\s]*(\d{1,3})\s*%` -/
def spo2Pat : RE :=
  .seq (.alt (.seq (.lit "O2".toList)
                   (.seq (.clsStar isSpaceC)
                         (.seq (.cls (oneOf 'S' 's') 1 1) (.lit "at".toList))))
             (.alt (.lit "SpO2".toList) (.lit "SaO2".toList)))
       (.seq (.clsStar isColonSpace)
             (.seq (.grp (digBody 1 3)) (.seq (.clsStar isSpaceC) (.lit ['%']))))

/-- `pO2[:\s]*(\d{1,3})\s*(?:mmHg)?` -/
def po2Pat : RE :=
  .seq (.lit "pO2".toList)
       (.seq (.clsStar isColonSpace)
             (.seq (.grp (digBody 1 3))
                   (.seq (.clsStar isSpaceC) (.opt (.lit "mmHg".toList)))))

/-- `pCO2[:\s]*(\d{1,3})\s*(?:mmHg)?` -/
def pco2Pat : RE :=
  .seq (.lit "pCO2".toList)
       (.seq (.clsStar isColonSpace)
             (.seq (.grp (digBody 1 3))
                   (.seq (.clsStar isSpaceC) (.opt (.lit "mmHg".toList)))))

/-- `pH[:\s]*(\d\.\d{1,2})` -/
def phPat : RE :=
  .seq (.lit "pH".toList) (.seq (.clsStar isColonSpace) (.grp (dotBody 1 1 1 2)))

/-- `HCO3[:\s]*(\d{1,3})\s*(?:mEq/L|mmol/L)?` -/
def hco3Pat : RE :=
  .seq (.lit "HCO3".toList)
       (.seq (.clsStar isColonSpace)
             (.seq (.grp (digBody 1 3))
                   (.seq (.clsStar isSpaceC)
                         (.opt (.alt (.lit "mEq/L".toList) (.lit "mmol/L".toList))))))

/-- `(?:HR|[Hh]eart [Rr]ate)[:\s]*(\d{2,3})` -/
def hrPat : RE :=
  .seq (.alt (.lit "HR".toList)
             (.seq (.cls (oneOf 'H' 'h') 1 1)
                   (.seq (.lit "eart ".toList)
                         (.seq (.cls (oneOf 'R' 'r') 1 1) (.lit "ate".toList)))))
       (.seq (.clsStar isColonSpace) (.grp (digBody 2 3)))

/-- `(?:RR|[Rr]esp(?:iratory)?\s*[Rr]ate)[:\s]*(\d{1,2})` -/
def rrPat : RE :=
  .seq (.alt (.lit "RR".toList)
             (.seq (.cls (oneOf 'R' 'r') 1 1)
                   (.seq (.lit "esp".toList)
                         (.seq (.opt (.lit "iratory".toList))
                               (.seq (.clsStar isSpaceC)
                                     (.seq (.cls (oneOf 'R' 'r') 1 1)
                                           (.lit "ate".toList)))))))
       (.seq (.clsStar isColonSpace) (.grp (digBody 1 2)))

/-- `(?:BP|[Bb]lood [Pp]ressure)[:\s]*(\d{2,3}/\d{2,3})` -/
def bpPat : RE :=
  .seq (.alt (.lit "BP".toList)
             (.seq (.cls (oneOf 'B' 'b') 1 1)
                   (.seq (.lit "lood ".toList)
                         (.seq (.cls (oneOf 'P' 'p') 1 1) (.lit "ressure".toList)))))
       (.seq (.clsStar isColonSpace) (.grp slashBody))

/-- `[Tt]emp(?:erature)?[:\s]*(\d{2}\.\d)\s*(?:C|F)?` -/
def tempPat : RE :=
  .seq (.cls (oneOf 'T' 't') 1 1)
       (.seq (.lit "emp".toList)
             (.seq (.opt (.lit "erature".toList))
                   (.seq (.clsStar isColonSpace)
                         (.seq (.grp (dotBody 2 2 1 1))
                               (.seq (.clsStar isSpaceC)
                                     (.opt (.alt (.lit ['C']) (.lit ['F']))))))))

/-- One entry of `LAB_PATTERNS`: (regex, LOINC code, unit, display name). -/
structure LabRule where
  pattern : RE
  loinc : String
  unit : String
  display : String

def spo2Rule : LabRule := ⟨spo2Pat, "59408-5", "%", "SpO2"⟩
def po2Rule : LabRule := ⟨po2Pat, "2703-7", "mmHg", "Arterial pO2"⟩
def pco2Rule : LabRule := ⟨pco2Pat, "2019-8", "mmHg", "Arterial pCO2"⟩
def phRule : LabRule := ⟨phPat, "2744-1", "[pH]", "Arterial pH"⟩
def hco3Rule : LabRule := ⟨hco3Pat, "1959-6", "mmol/L", "Bicarbonate"⟩
def hrRule : LabRule := ⟨hrPat, "8867-4", "/min", "Heart rate"⟩
def rrRule : LabRule := ⟨rrPat, "9279-1", "/min", "Respiratory rate"⟩
def bpRule : LabRule := ⟨bpPat, "85354-9", "mmHg", "Blood pressure"⟩
def tempRule : LabRule := ⟨tempPat, "8310-5", "Cel", "Body temperature"⟩

/-- Source `LAB_PATTERNS` (app.py lines 106-116), in priority order. -/
def LAB_PATTERNS : List LabRule :=
  [spo2Rule, po2Rule, pco2Rule, phRule, hco3Rule, hrRule, rrRule, bpRule, tempRule]

/-! ## Entities and lab extraction -/

/-- A `{start, end}` character span (`end` is a Lean keyword; it is `stop`
here). -/
structure Span where
  start : Nat
  stop : Nat
deriving DecidableEq, Repr

/-- The unified output record (spec section 3).  An optional JSON field that a
producer leaves unset is `none`.  `numericValue` is modelled as `Rat`
(exact on every value these patterns can capture). -/
structure Entity where
  text : List Char
  type : String
  code : Option String
  codeSystem : Option String
  codeDisplay : Option String
  assertion : String
  temporality : String
  numericValue : Option Rat
  unit : Option String
  spans : List Span
deriving DecidableEq, Repr

/-- Split a character list at every occurrence of `sep` (Python `str.split`). -/
def splitOnC (sep : Char) : List Char → List (List Char)
  | [] => [[]]
  | c :: rest =>
      let r := splitOnC sep rest
      if c == sep then [] :: r
      else
        match r with
        | [] => [[c]]
        | h :: ts => (c :: h) :: ts

/-- Decimal digits to a natural number. -/
def digitsToNat (l : List Char) : Nat :=
  l.foldl (fun acc c => 10 * acc + (c.toNat - 48)) 0

/-- Python `float(s)` on the strings the capture groups can produce: plain
digit runs and `digits.digits` parse, everything else fails (`none` embeds
the raised `ValueError`). -/
def parseFloat (g : List Char) : Option Rat :=
  match splitOnC '.' g with
  | [a] =>
      if !a.isEmpty && a.all Char.isDigit then some ((digitsToNat a : Nat) : Rat)
      else none
  | [a, b] =>
      if a.all Char.isDigit && b.all Char.isDigit && (!a.isEmpty || !b.isEmpty)
      then some ((digitsToNat a : Rat) + (digitsToNat b : Rat) / ((10 : Rat) ^ b.length))
      else none
  | _ => none

/-- Python `"/" in value_str`. -/
def hasSlash (g : List Char) : Bool := g.any (fun c => c == '/')

/-- The capture-group slice of a match, `match.group(1)`. -/
def groupSlice (t : List Char) (m : Nat × Nat × Option (Nat × Nat)) : List Char :=
  match m.2.2 with
  | some g => sliceT t g.1 g.2
  | none => []

/-- The entity one regex match produces (app.py lines 160-182): `try: float`
with the `ValueError` absorbed becomes the `parseFloat = none` branch. -/
def mkLabEntity (t : List Char) (rule : LabRule)
    (m : Nat × Nat × Option (Nat × Nat)) : Entity :=
  let value_str := groupSlice t m
  let matched_text := sliceT t m.1 m.2.1
  let base : Entity :=
    { text := matched_text
      type := "lab"
      code := some rule.loinc
      codeSystem := some "http://loinc.org"
      codeDisplay := some rule.display
      assertion := detect_assertion t m.1 matched_text
      temporality := detect_temporality t m.1
      numericValue := none
      unit := none
      spans := [⟨m.1, m.2.1⟩] }
  if hasSlash value_str then base
  else
    match parseFloat value_str with
    | some v => { base with numericValue := some v, unit := some rule.unit }
    | none => base

/-- Source `extract_lab_values` (app.py lines 155-186): all matches of every
pattern, grouped by rule in rule order. -/
def extract_lab_values (t : List Char) : List Entity :=
  LAB_PATTERNS.flatMap (fun rule => (finditer rule.pattern t).map (mkLabEntity t rule))

/-! ## Normalisation of external NLP spans, merge/dedup, route -/

/-- One span from the external NLP pipeline (spec sections 1 and 4.4): text,
label and character offsets, plus the duck-typed optional negation flag
(`none` models a pipeline whose spans do not carry `is_negated` at all). -/
structure ExtSpan where
  txt : List Char
  label : String
  start_char : Nat
  end_char : Nat
  is_negated : Option Bool
deriving DecidableEq, Repr

/-- Source `CODE_MAP` (app.py lines 88-103): lower-cased surface form to
(code, coding system). -/
def CODE_MAP : List (List Char × String × String) :=
  let icd := "http://hl7.org/fhir/sid/icd-10-cm"
  [("acute respiratory failure".toList, "J96.00", icd),
   ("respiratory failure".toList, "J96.9", icd),
   ("copd".toList, "J44.1", icd),
   ("copd exacerbation".toList, "J44.1", icd),
   ("chronic obstructive pulmonary disease".toList, "J44.9", icd),
   ("pneumonia".toList, "J18.9", icd),
   ("sepsis".toList, "A41.9", icd),
   ("dyspnea".toList, "R06.00", icd),
   ("shortness of breath".toList, "R06.02", icd),
   ("hypoxia".toList, "R09.02", icd),
   ("hypercapnia".toList, "R06.89", icd),
   ("chest pain".toList, "R07.9", icd),
   ("fever".toList, "R50.9", icd),
   ("cough".toList, "R05.9", icd)]

/-- `CODE_MAP.get(entity_text.lower(), {})` (app.py line 209). -/
def lookupCode (s : List Char) : Option (String × String) :=
  (CODE_MAP.find? (fun kv => kv.1 == s.map Char.toLower)).map (fun kv => kv.2)

/-- `type_map.get(entity_label, "other")` (app.py lines 201-206). -/
def type_map (label : String) : String :=
  if label == "PROBLEM" then "problem"
  else if label == "MEDICATION" then "medication"
  else if label == "SIGN_SYMPTOM" then "sign_symptom"
  else "other"

/-- The entity one external span produces (app.py lines 196-230): the
explicit negation flag, when present and true, wins; otherwise the lexical
detector runs.  Temporality is always lexical. -/
def normalizeSpan (text : List Char) (s : ExtSpan) : Entity :=
  let code_info := lookupCode s.txt
  let assertion :=
    match s.is_negated with
    | some true => "negated"
    | _ => detect_assertion text s.start_char s.txt
  { text := s.txt
    type := type_map s.label
    code := code_info.map (fun ci => ci.1)
    codeSystem := code_info.map (fun ci => ci.2)
    codeDisplay := none
    assertion := assertion
    temporality := detect_temporality text s.start_char
    numericValue := none
    unit := none
    spans := [⟨s.start_char, s.end_char⟩] }

/-- The dedup key `(e["text"].lower(), e["type"], e["spans"][0]["start"])`
(app.py line 240).  Every producer emits exactly one span; an entity with no
span (impossible here) keys on start `0`. -/
def entityKey (e : Entity) : List Char × String × Nat :=
  (e.text.map Char.toLower, e.type, (e.spans.headD ⟨0, 0⟩).start)

/-- The dedup loop (app.py lines 237-243): `seen` is the set of keys already
kept; only the first occurrence of each key survives. -/
def dedupAux (seen : List (List Char × String × Nat)) : List Entity → List Entity
  | [] => []
  | e :: rest =>
      if entityKey e ∈ seen then dedupAux seen rest
      else e :: dedupAux (entityKey e :: seen) rest

/-- Spec section 4.5 `merge(nlpEntities, labEntities)`: concatenate, then
deduplicate keeping first occurrences. -/
def mergeEntities (nlpEntities labEntities : List Entity) : List Entity :=
  dedupAux [] (nlpEntities ++ labEntities)

/-- Source `extract_clinical_entities` (app.py lines 189-245), with the
external pipeline a parameter. -/
def extract_clinical_entities (pipeline : List Char → List ExtSpan)
    (text : List Char) : List Entity :=
  mergeEntities ((pipeline text).map (normalizeSpan text)) (extract_lab_values text)

/-- The `/analyze` response (app.py lines 256-264): HTTP status, error body,
and entity list. -/
structure AnalyzeResponse where
  status : Nat
  error : Option String
  entities : Option (List Entity)
deriving DecidableEq, Repr

/-- Source `analyze` (app.py lines 256-264): `body.get("text", "")` makes a
missing field the empty string; a falsy (empty) text is a 400 with no
extraction, otherwise a 200 carrying the core's output. -/
def analyze (pipeline : List Char → List ExtSpan)
    (textField : Option (List Char)) : AnalyzeResponse :=
  let text := textField.getD []
  if text.isEmpty then ⟨400, some "Missing 'text' field", none⟩
  else ⟨200, none, some (extract_clinical_entities pipeline text)⟩

/-! ## Static analysis helpers over `RE` (used only by the theorems) -/

/-- Fewest characters a match of `r` can consume. -/
def minLen : RE → Nat
  | .lit s => s.length
  | .cls _ lo _ => lo
  | .clsStar _ => 0
  | .seq a b => minLen a + minLen b
  | .alt a b => min (minLen a) (minLen b)
  | .opt _ => 0
  | .grp a => minLen a

/-- The bodies of the capture groups occurring in `r`. -/
def grpBodies : RE → List RE
  | .lit _ => []
  | .cls _ _ _ => []
  | .clsStar _ => []
  | .seq a b => grpBodies a ++ grpBodies b
  | .alt a b => grpBodies a ++ grpBodies b
  | .opt a => grpBodies a
  | .grp a => [a]

/-- `true` when every match of `r` carries a capture. -/
def alwaysCaps : RE → Bool
  | .lit _ => false
  | .cls _ _ _ => false
  | .clsStar _ => false
  | .seq a b => alwaysCaps a || alwaysCaps b
  | .alt a b => alwaysCaps a && alwaysCaps b
  | .opt _ => false
  | .grp _ => true

/-- A non-empty run of ASCII digits. -/
def allDigits (g : List Char) : Bool := !g.isEmpty && g.all Char.isDigit

/-- Digits, one `.`, digits (both runs non-empty). -/
def dotShape (g : List Char) : Bool :=
  match splitOnC '.' g with
  | [a, b] => !a.isEmpty && !b.isEmpty && a.all Char.isDigit && b.all Char.isDigit
  | _ => false

/-- Digits, one `/`, digits (both runs non-empty): the compound form. -/
def slashShape (g : List Char) : Bool :=
  match splitOnC '/' g with
  | [a, b] => !a.isEmpty && !b.isEmpty && a.all Char.isDigit && b.all Char.isDigit
  | _ => false

/-- The three shapes a lab capture group can take. -/
def groupShape (g : List Char) : Bool := allDigits g || dotShape g || slashShape g

/-! ## Concrete fixtures for the spec's scenarios -/

/-- The section 8 scenario input. -/
def scenarioText : List Char :=
  "Patient denies chest pain. HR: 110. History of COPD.".toList

/-- Modelled from the spec: the external NLP pipeline (an out-of-scope
collaborator, spec sections 1 and 4.4) recognises the target-rule phrases
`chest pain` (offsets 15-25) and `COPD` (offsets 47-51) of the section 8
scenario text and returns them as PROBLEM spans; it is modelled as not
providing context flags, the case in which the normaliser's lexical
fallback runs. -/
def scenarioPipeline : List Char → List ExtSpan := fun _ =>
  [⟨"chest pain".toList, "PROBLEM", 15, 25, none⟩,
   ⟨"COPD".toList, "PROBLEM", 47, 51, none⟩]

/-- Modelled from the spec: on texts containing none of the target-rule
phrases (such as `"BP: 120/80"`) the external NLP pipeline returns no
spans. -/
def emptyPipeline : List Char → List ExtSpan := fun _ => []

/-- The entity the scenario's `chest pain` span normalises to. -/
def chestPainEntity : Entity :=
  { text := "chest pain".toList, type := "problem", code := some "R07.9",
    codeSystem := some "http://hl7.org/fhir/sid/icd-10-cm", codeDisplay := none,
    assertion := "negated", temporality := "current", numericValue := none,
    unit := none, spans := [⟨15, 25⟩] }

/-- The entity the scenario's `COPD` span normalises to. -/
def copdEntity : Entity :=
  { text := "COPD".toList, type := "problem", code := some "J44.1",
    codeSystem := some "http://hl7.org/fhir/sid/icd-10-cm", codeDisplay := none,
    assertion := "negated", temporality := "historical", numericValue := none,
    unit := none, spans := [⟨47, 51⟩] }

/-- The lab entity `HR: 110` extracts to.  Its assertion is `negated`: the
60-character window before offset 27 still contains `denies `. -/
def hrEntity : Entity :=
  { text := "HR: 110".toList, type := "lab", code := some "8867-4",
    codeSystem := some "http://loinc.org", codeDisplay := some "Heart rate",
    assertion := "negated", temporality := "current",
    numericValue := some 110, unit := some "/min", spans := [⟨27, 34⟩] }

/-- The lab entity `"BP: 120/80"` extracts to: compound value, so no
`numericValue`/`unit`. -/
def bpEntity : Entity :=
  { text := "BP: 120/80".toList, type := "lab", code := some "85354-9",
    codeSystem := some "http://loinc.org", codeDisplay := some "Blood pressure",
    assertion := "affirmed", temporality := "current", numericValue := none,
    unit := none, spans := [⟨0, 10⟩] }

/-- A small entity used to instantiate hypotheses in witnesses. -/
def sampleEntityA : Entity :=
  { text := "fever".toList, type := "problem", code := some "R50.9",
    codeSystem := some "http://hl7.org/fhir/sid/icd-10-cm", codeDisplay := none,
    assertion := "affirmed", temporality := "current", numericValue := none,
    unit := none, spans := [⟨0, 5⟩] }

/-- A second sample entity, same text as `sampleEntityA` at another offset. -/
def sampleEntityB : Entity :=
  { sampleEntityA with spans := [⟨10, 15⟩] }

/-! # Lemmas and claim theorems -/

lemma startsWithL_iff (h n : List Char) :
    startsWithL h n = true ↔ ∃ r, h = n ++ r := by
  induction n generalizing h with
  | nil => simp [startsWithL]
  | cons y ys ih =>
      cases h with
      | nil => simp [startsWithL]
      | cons x xs =>
          simp only [startsWithL, Bool.and_eq_true, beq_iff_eq, ih, List.cons_append,
            List.cons.injEq]
          constructor
          · rintro ⟨rfl, r, rfl⟩
            exact ⟨r, rfl, rfl⟩
          · rintro ⟨r, rfl, rfl⟩
            exact ⟨rfl, r, rfl⟩

lemma hasSub_iff (h n : List Char) :
    hasSub h n = true ↔ ∃ l r, h = l ++ n ++ r := by
  induction h with
  | nil =>
      simp only [hasSub, List.isEmpty_iff]
      constructor
      · rintro rfl
        exact ⟨[], [], rfl⟩
      · rintro ⟨l, r, hl⟩
        rcases List.append_eq_nil.mp (List.append_eq_nil.mp hl.symm).1 with ⟨-, h2⟩
        exact h2
  | cons x xs ih =>
      simp only [hasSub, Bool.or_eq_true, startsWithL_iff, ih]
      constructor
      · rintro (⟨r, hr⟩ | ⟨l, r, hr⟩)
        · exact ⟨[], r, by simpa using hr⟩
        · exact ⟨x :: l, r, by simp [hr]⟩
      · rintro ⟨l, r, hr⟩
        cases l with
        | nil => exact Or.inl ⟨r, by simpa using hr⟩
        | cons a l' =>
            rw [List.cons_append, List.cons_append, List.cons.injEq] at hr
            exact Or.inr ⟨l', r, hr.2⟩

/-- C1: `detect_assertion(t, o, e)` returns `negated` exactly when one of the
eleven negation cues occurs as a literal substring of the lower-cased window
`t[max(0, o-60):o]`, and returns `affirmed` otherwise. -/
theorem detect_assertion_correct (t : List Char) (o : Nat) (etext : List Char) :
    (detect_assertion t o etext = "negated" ↔
      ∃ cue ∈ NEGATION_CUES, ∃ l r, lowerWindow t o 60 = l ++ cue.toList ++ r) ∧
    (detect_assertion t o etext = "affirmed" ↔
      ¬ ∃ cue ∈ NEGATION_CUES, ∃ l r, lowerWindow t o 60 = l ++ cue.toList ++ r) := by
  have hne : ("negated" : String) ≠ "affirmed" := by decide
  unfold detect_assertion
  by_cases h : (NEGATION_CUES.any fun cue => hasSub (lowerWindow t o 60) cue.toList) = true
  · rw [if_pos h]
    rw [List.any_eq_true] at h
    simp only [hasSub_iff] at h
    exact ⟨⟨fun _ => h, fun _ => rfl⟩, ⟨fun heq => absurd heq hne, fun hc => absurd h hc⟩⟩
  · rw [if_neg h]
    rw [List.any_eq_true] at h
    simp only [hasSub_iff] at h
    exact ⟨⟨fun heq => absurd heq.symm hne, fun hc => absurd hc h⟩,
           ⟨fun _ => h, fun _ => rfl⟩⟩

/-- C2: `detect_temporality(t, o)` returns `historical` exactly when a
historical cue occurs in the lower-cased 80-character window, `hypothetical`
exactly when no historical cue but a hypothetical cue occurs there, and
`current` otherwise; in particular a historical cue wins even when cues of
both kinds occur. -/
theorem detect_temporality_correct (t : List Char) (o : Nat) :
    (detect_temporality t o = "historical" ↔
      ∃ cue ∈ history_cues, ∃ l r, lowerWindow t o 80 = l ++ cue.toList ++ r) ∧
    (detect_temporality t o = "hypothetical" ↔
      (¬ ∃ cue ∈ history_cues, ∃ l r, lowerWindow t o 80 = l ++ cue.toList ++ r) ∧
      ∃ cue ∈ hypothetical_cues, ∃ l r, lowerWindow t o 80 = l ++ cue.toList ++ r) ∧
    (detect_temporality t o = "current" ↔
      (¬ ∃ cue ∈ history_cues, ∃ l r, lowerWindow t o 80 = l ++ cue.toList ++ r) ∧
      ¬ ∃ cue ∈ hypothetical_cues, ∃ l r, lowerWindow t o 80 = l ++ cue.toList ++ r) := by
  have h1 : ("historical" : String) ≠ "hypothetical" := by decide
  have h2 : ("historical" : String) ≠ "current" := by decide
  have h3 : ("hypothetical" : String) ≠ "current" := by decide
  unfold detect_temporality
  by_cases hh : (history_cues.any fun cue => hasSub (lowerWindow t o 80) cue.toList) = true
  · rw [if_pos hh]
    rw [List.any_eq_true] at hh
    simp only [hasSub_iff] at hh
    refine ⟨⟨fun _ => hh, fun _ => rfl⟩, ⟨fun heq => absurd heq h1, ?_⟩,
            ⟨fun heq => absurd heq h2, ?_⟩⟩
    · rintro ⟨hno, -⟩
      exact absurd hh hno
    · rintro ⟨hno, -⟩
      exact absurd hh hno
  · rw [if_neg hh]
    rw [List.any_eq_true] at hh
    simp only [hasSub_iff] at hh
    by_cases hy :
        (hypothetical_cues.any fun cue => hasSub (lowerWindow t o 80) cue.toList) = true
    · rw [if_pos hy]
      rw [List.any_eq_true] at hy
      simp only [hasSub_iff] at hy
      refine ⟨⟨fun heq => absurd heq.symm h1, fun hc => absurd hc hh⟩,
              ⟨fun _ => ⟨hh, hy⟩, fun _ => rfl⟩,
              ⟨fun heq => absurd heq h3, ?_⟩⟩
      rintro ⟨-, hno⟩
      exact absurd hy hno
    · rw [if_neg hy]
      rw [List.any_eq_true] at hy
      simp only [hasSub_iff] at hy
      exact ⟨⟨fun heq => absurd heq.symm h2, fun hc => absurd hc hh⟩,
             ⟨fun heq => absurd heq.symm h3, fun hc => absurd hc.2 hy⟩,
             ⟨fun _ => ⟨hh, hy⟩, fun _ => rfl⟩⟩

/-- C9: the result of `detect_assertion` does not depend on the
`entity_text` argument: any two values give the same answer. -/
theorem detect_assertion_ignores_entity_text (t : List Char) (o : Nat)
    (e1 e2 : List Char) : detect_assertion t o e1 = detect_assertion t o e2 := rfl

/-- C7 counterexample: a span whose pipeline provides the negation flag with
value `false` (`is_negated = some false`) is still overridden by lexical
detection: in `"no fever"` the normaliser returns `negated` for it, where
the claim requires the present-but-false flag to be trusted (`affirmed`). -/
theorem flag_false_overridden_by_lexical :
    (normalizeSpan ("no fever".toList)
        ⟨"fever".toList, "PROBLEM", 3, 8, some false⟩).assertion = "negated" ∧
    ("negated" : String) ≠ "affirmed" := by
  constructor
  · decide
  · decide

/-- C7 amended: a present-and-true flag forces `negated`; in every other
case — flag absent or present-but-false — the assertion is whatever lexical
cue-window detection returns; temporality is always computed lexically,
regardless of the flag. -/
theorem normalize_assertion_flag (t : List Char) (s : ExtSpan) :
    (s.is_negated = some true → (normalizeSpan t s).assertion = "negated") ∧
    (s.is_negated ≠ some true →
      (normalizeSpan t s).assertion = detect_assertion t s.start_char s.txt) ∧
    (normalizeSpan t s).temporality = detect_temporality t s.start_char := by
  refine ⟨fun h => ?_, fun h => ?_, rfl⟩
  · simp [normalizeSpan, h]
  · unfold normalizeSpan
    match hf : s.is_negated with
    | none => simp
    | some true => exact absurd hf h
    | some false => simp

/-- C8: a missing or empty `text` field yields status 400 with body
`{"error": "Missing 'text' field"}` and no entities, independently of the
NLP pipeline (the core is not consulted); a non-empty `text` yields
status 200 with the core's entity list. -/
theorem analyze_routing (pipeline pipeline2 : List Char → List ExtSpan)
    (textField : Option (List Char)) :
    ((textField = none ∨ textField = some []) →
        analyze pipeline textField = ⟨400, some "Missing 'text' field", none⟩ ∧
        analyze pipeline textField = analyze pipeline2 textField) ∧
    (∀ t, textField = some t → t ≠ [] →
        analyze pipeline textField =
          ⟨200, none, some (extract_clinical_entities pipeline t)⟩) := by
  constructor
  · rintro (rfl | rfl) <;> exact ⟨rfl, rfl⟩
  · rintro t rfl ht
    unfold analyze
    rw [if_neg (by simpa [Option.getD, List.isEmpty_iff] using ht)]
    rfl

lemma dedup_sublist (seen : List (List Char × String × Nat)) :
    ∀ l : List Entity, (dedupAux seen l).Sublist l := by
  intro l
  induction l generalizing seen with
  | nil => simp [dedupAux]
  | cons a rest ih =>
      simp only [dedupAux]
      by_cases hka : entityKey a ∈ seen
      · exact (if_pos hka) ▸ (ih seen).cons a
      · exact (if_neg hka) ▸ (ih (entityKey a :: seen)).cons₂ a

lemma dedup_mem_iff (e : Entity) :
    ∀ (l : List Entity) (seen : List (List Char × String × Nat)),
      e ∈ dedupAux seen l ↔ entityKey e ∉ seen ∧
        l.find? (fun x => decide (entityKey x = entityKey e)) = some e := by
  intro l
  induction l with
  | nil => intro seen; simp [dedupAux]
  | cons a rest ih =>
      intro seen
      simp only [dedupAux]
      by_cases hk : entityKey a = entityKey e
      · rw [List.find?_cons_of_pos _ (by simp [hk])]
        by_cases hka : entityKey a ∈ seen
        · rw [if_pos hka, ih]
          have he : entityKey e ∈ seen := hk ▸ hka
          constructor
          · rintro ⟨hne, -⟩
            exact absurd he hne
          · rintro ⟨hne, -⟩
            exact absurd he hne
        · rw [if_neg hka, List.mem_cons]
          constructor
          · rintro (rfl | hmem)
            · exact ⟨fun hc => hka (hk ▸ hc), rfl⟩
            · rcases (ih (entityKey a :: seen)).mp hmem with ⟨hne, -⟩
              exact absurd (List.mem_cons_self _ _) (hk ▸ hne)
          · rintro ⟨-, ha⟩
            exact Or.inl (Option.some_inj.mp ha).symm
      · rw [List.find?_cons_of_neg _ (by simp [hk])]
        by_cases hka : entityKey a ∈ seen
        · rw [if_pos hka, ih]
        · rw [if_neg hka, List.mem_cons]
          constructor
          · rintro (rfl | hmem)
            · exact absurd rfl hk
            · rcases (ih (entityKey a :: seen)).mp hmem with ⟨hne, hf⟩
              exact ⟨fun hc => hne (List.mem_cons_of_mem _ hc), hf⟩
          · rintro ⟨hne, hf⟩
            refine Or.inr ((ih (entityKey a :: seen)).mpr ⟨?_, hf⟩)
            intro hc
            rcases List.mem_cons.mp hc with hc | hc
            · exact hk hc.symm
            · exact hne hc

lemma dedup_key_reached (e : Entity) :
    ∀ (l : List Entity) (seen : List (List Char × String × Nat)),
      e ∈ l → entityKey e ∉ seen →
      ∃ x ∈ dedupAux seen l, entityKey x = entityKey e := by
  intro l
  induction l with
  | nil => intro seen h; exact absurd h (List.not_mem_nil e)
  | cons a rest ih =>
      intro seen hmem hne
      simp only [dedupAux]
      by_cases hka : entityKey a ∈ seen
      · rw [if_pos hka]
        rcases List.mem_cons.mp hmem with he | hmem
        · exact absurd (by rw [he]; exact hka) hne
        · exact ih seen hmem hne
      · rw [if_neg hka]
        rcases List.mem_cons.mp hmem with he | hmem
        · exact ⟨a, List.mem_cons_self _ _, by rw [he]⟩
        · by_cases hk : entityKey a = entityKey e
          · exact ⟨a, List.mem_cons_self _ _, hk⟩
          · have : entityKey e ∉ entityKey a :: seen := by
              intro hc
              rcases List.mem_cons.mp hc with hc | hc
              · exact hk hc.symm
              · exact hne hc
            rcases ih (entityKey a :: seen) hmem this with ⟨x, hx, hxk⟩
            exact ⟨x, List.mem_cons_of_mem _ hx, hxk⟩

lemma dedup_keys_distinct (seen : List (List Char × String × Nat)) :
    ∀ l : List Entity,
      (dedupAux seen l).Pairwise (fun x y => entityKey x ≠ entityKey y) := by
  intro l
  induction l generalizing seen with
  | nil => simp [dedupAux]
  | cons a rest ih =>
      simp only [dedupAux]
      by_cases hka : entityKey a ∈ seen
      · rw [if_pos hka]
        exact ih seen
      · rw [if_neg hka]
        refine List.Pairwise.cons ?_ (ih (entityKey a :: seen))
        intro b hb hc
        rcases (dedup_mem_iff b rest (entityKey a :: seen)).mp hb with ⟨hne, -⟩
        exact hne (hc ▸ List.mem_cons_self _ _)

lemma takeWhile_length_le (q : Char → Bool) :
    ∀ l : List Char, (l.takeWhile q).length ≤ l.length := by
  intro l
  induction l with
  | nil => simp
  | cons a rest ih =>
      cases hq : q a <;> simp [List.takeWhile_cons, hq] <;> omega

lemma take_of_takeWhile (q : Char → Bool) :
    ∀ (l : List Char) (k : Nat), k ≤ (l.takeWhile q).length →
      ∀ x ∈ l.take k, q x = true := by
  intro l
  induction l with
  | nil => simp
  | cons a rest ih =>
      intro k hk x hx
      by_cases hq : q a
      · rw [List.takeWhile_cons, if_pos hq, List.length_cons] at hk
        cases k with
        | zero => simp at hx
        | succ k =>
            rw [List.take_succ_cons, List.mem_cons] at hx
            rcases hx with rfl | hx
            · exact hq
            · exact ih k (by omega) x hx
      · rw [List.takeWhile_cons, if_neg hq, List.length_nil] at hk
        interval_cases k
        simp at hx

lemma sliceT_add (t : List Char) (a k : Nat) :
    sliceT t a (a + k) = (t.drop a).take k := by
  unfold sliceT
  rw [List.drop_take]
  congr 1
  omega

lemma length_sliceT (t : List Char) (a b : Nat) :
    (sliceT t a b).length = min b t.length - a := by
  unfold sliceT
  rw [List.length_drop, List.length_take]

lemma mats_lit (s t : List Char) (pos p : Nat) (c : Option (Nat × Nat))
    (hpos : pos ≤ t.length) (h : (p, c) ∈ mats (.lit s) t pos) :
    c = none ∧ p = pos + s.length ∧ sliceT t pos p = s ∧ p ≤ t.length := by
  unfold mats at h
  split at h
  case isTrue heq =>
    rw [List.mem_singleton, Prod.mk.injEq] at h
    obtain ⟨rfl, rfl⟩ := h
    refine ⟨rfl, rfl, beq_iff_eq.mp heq, ?_⟩
    have hlen := length_sliceT t pos (pos + s.length)
    rw [beq_iff_eq.mp heq] at hlen
    omega
  case isFalse => exact absurd h (List.not_mem_nil _)

lemma mats_cls (q : Char → Bool) (lo hi : Nat) (t : List Char) (pos p : Nat)
    (c : Option (Nat × Nat)) (hpos : pos ≤ t.length)
    (h : (p, c) ∈ mats (.cls q lo hi) t pos) :
    c = none ∧ ∃ k, p = pos + k ∧ lo ≤ k ∧ k ≤ hi ∧ p ≤ t.length ∧
      (sliceT t pos p).length = k ∧ ∀ x ∈ sliceT t pos p, q x = true := by
  unfold mats at h
  rw [List.mem_map] at h
  obtain ⟨i, hi_mem, heq⟩ := h
  rw [List.mem_range] at hi_mem
  rw [Prod.mk.injEq] at heq
  obtain ⟨hp, rfl⟩ := heq
  set avail := (((t.drop pos).take hi).takeWhile q).length with havail
  have h1 : avail ≤ ((t.drop pos).take hi).length := takeWhile_length_le q _
  rw [List.length_take, List.length_drop] at h1
  refine ⟨rfl, avail - i, hp.symm, by omega, by omega, by omega, ?_, ?_⟩
  · rw [← hp, sliceT_add, List.length_take, List.length_drop]
    omega
  · rw [← hp, sliceT_add]
    intro x hx
    have hkhi : avail - i ≤ hi := by omega
    have : (t.drop pos).take (avail - i) = ((t.drop pos).take hi).take (avail - i) := by
      rw [List.take_take]
      congr 1
      omega
    rw [this] at hx
    exact take_of_takeWhile q _ (avail - i) (by omega) x hx

lemma mats_clsStar (q : Char → Bool) (t : List Char) (pos p : Nat)
    (c : Option (Nat × Nat)) (hpos : pos ≤ t.length)
    (h : (p, c) ∈ mats (.clsStar q) t pos) :
    c = none ∧ ∃ k, p = pos + k ∧ p ≤ t.length ∧
      (sliceT t pos p).length = k ∧ ∀ x ∈ sliceT t pos p, q x = true := by
  unfold mats at h
  rw [List.mem_map] at h
  obtain ⟨i, hi_mem, heq⟩ := h
  rw [List.mem_range] at hi_mem
  rw [Prod.mk.injEq] at heq
  obtain ⟨hp, rfl⟩ := heq
  set avail := ((t.drop pos).takeWhile q).length with havail
  have h1 : avail ≤ (t.drop pos).length := takeWhile_length_le q _
  rw [List.length_drop] at h1
  refine ⟨rfl, avail - i, hp.symm, by omega, ?_, ?_⟩
  · rw [← hp, sliceT_add, List.length_take, List.length_drop]
    omega
  · rw [← hp, sliceT_add]
    intro x hx
    have : (t.drop pos).take (avail - i) = ((t.drop pos).takeWhile q).take (avail - i) := by
      have := List.takeWhile_prefix (l := t.drop pos) (p := q)
      obtain ⟨rest, hrest⟩ := this
      conv_lhs => rw [← hrest]
      rw [List.take_append_of_le_length (by omega)]
    rw [this] at hx
    exact List.mem_takeWhile_imp (List.take_subset _ _ hx)

lemma capJoin_eq_some (c1 c2 : Option (Nat × Nat)) (g : Nat × Nat)
    (h : capJoin c1 c2 = some g) :
    c1 = some g ∨ (c1 = none ∧ c2 = some g) := by
  cases c1 with
  | some x => exact Or.inl (by simpa [capJoin] using h)
  | none => exact Or.inr ⟨rfl, by simpa [capJoin] using h⟩

lemma capJoin_isSome (c1 c2 : Option (Nat × Nat)) :
    (capJoin c1 c2).isSome = (c1.isSome || c2.isSome) := by
  cases c1 <;> simp [capJoin]

lemma mats_bounds : ∀ (r : RE) (t : List Char) (pos p : Nat) (c : Option (Nat × Nat)),
    pos ≤ t.length → (p, c) ∈ mats r t pos → pos + minLen r ≤ p ∧ p ≤ t.length := by
  intro r
  induction r with
  | lit s =>
      intro t pos p c hpos h
      obtain ⟨-, rfl, -, hle⟩ := mats_lit s t pos p c hpos h
      exact ⟨le_refl _, hle⟩
  | cls q lo hi =>
      intro t pos p c hpos h
      obtain ⟨-, k, rfl, hlo, -, hle, -⟩ := mats_cls q lo hi t pos p c hpos h
      exact ⟨by simpa [minLen] using hlo, hle⟩
  | clsStar q =>
      intro t pos p c hpos h
      obtain ⟨-, k, rfl, hle, -⟩ := mats_clsStar q t pos p c hpos h
      exact ⟨by simp [minLen], hle⟩
  | seq a b iha ihb =>
      intro t pos p c hpos h
      unfold mats at h
      rw [List.mem_flatMap] at h
      obtain ⟨pc, hpc, h⟩ := h
      rw [List.mem_map] at h
      obtain ⟨qc, hqc, heq⟩ := h
      rw [Prod.mk.injEq] at heq
      obtain ⟨rfl, -⟩ := heq
      obtain ⟨h1, h2⟩ := iha t pos pc.1 pc.2 hpos (by simpa using hpc)
      obtain ⟨h3, h4⟩ := ihb t pc.1 qc.1 qc.2 h2 (by simpa using hqc)
      refine ⟨?_, h4⟩
      simp only [minLen]
      omega
  | alt a b iha ihb =>
      intro t pos p c hpos h
      unfold mats at h
      rw [List.mem_append] at h
      rcases h with h | h
      · obtain ⟨h1, h2⟩ := iha t pos p c hpos h
        exact ⟨by simp only [minLen]; omega, h2⟩
      · obtain ⟨h1, h2⟩ := ihb t pos p c hpos h
        exact ⟨by simp only [minLen]; omega, h2⟩
  | opt a iha =>
      intro t pos p c hpos h
      unfold mats at h
      rw [List.mem_append] at h
      rcases h with h | h
      · obtain ⟨h1, h2⟩ := iha t pos p c hpos h
        exact ⟨by simp only [minLen]; omega, h2⟩
      · rw [List.mem_singleton, Prod.mk.injEq] at h
        obtain ⟨rfl, -⟩ := h
        exact ⟨by simp [minLen], hpos⟩
  | grp a iha =>
      intro t pos p c hpos h
      unfold mats at h
      rw [List.mem_map] at h
      obtain ⟨pc, hpc, heq⟩ := h
      rw [Prod.mk.injEq] at heq
      obtain ⟨rfl, -⟩ := heq
      obtain ⟨h1, h2⟩ := iha t pos pc.1 pc.2 hpos (by simpa using hpc)
      exact ⟨by simpa [minLen] using h1, h2⟩

lemma mats_cap : ∀ (r : RE) (t : List Char) (pos p gs ge : Nat),
    (p, some (gs, ge)) ∈ mats r t pos →
    ∃ b ∈ grpBodies r, ∃ c', (ge, c') ∈ mats b t gs := by
  intro r
  induction r with
  | lit s =>
      intro t pos p gs ge h
      unfold mats at h
      split at h <;> simp at h
  | cls q lo hi =>
      intro t pos p gs ge h
      unfold mats at h
      simp at h
  | clsStar q =>
      intro t pos p gs ge h
      unfold mats at h
      simp at h
  | seq a b iha ihb =>
      intro t pos p gs ge h
      unfold mats at h
      rw [List.mem_flatMap] at h
      obtain ⟨pc, hpc, h⟩ := h
      rw [List.mem_map] at h
      obtain ⟨qc, hqc, heq⟩ := h
      rw [Prod.mk.injEq] at heq
      obtain ⟨-, hcap⟩ := heq
      rcases capJoin_eq_some pc.2 qc.2 (gs, ge) hcap with hc | ⟨-, hc⟩
      · obtain ⟨b', hb', hm⟩ := iha t pos pc.1 gs ge (by rw [← hc]; simpa using hpc)
        exact ⟨b', by simp [grpBodies, hb'], hm⟩
      · obtain ⟨b', hb', hm⟩ := ihb t pc.1 qc.1 gs ge (by rw [← hc]; simpa using hqc)
        exact ⟨b', by simp [grpBodies, hb'], hm⟩
  | alt a b iha ihb =>
      intro t pos p gs ge h
      unfold mats at h
      rw [List.mem_append] at h
      rcases h with h | h
      · obtain ⟨b', hb', hm⟩ := iha t pos p gs ge h
        exact ⟨b', by simp [grpBodies, hb'], hm⟩
      · obtain ⟨b', hb', hm⟩ := ihb t pos p gs ge h
        exact ⟨b', by simp [grpBodies, hb'], hm⟩
  | opt a iha =>
      intro t pos p gs ge h
      unfold mats at h
      rw [List.mem_append] at h
      rcases h with h | h
      · obtain ⟨b', hb', hm⟩ := iha t pos p gs ge h
        exact ⟨b', by simpa [grpBodies] using hb', hm⟩
      · simp at h
  | grp a iha =>
      intro t pos p gs ge h
      unfold mats at h
      rw [List.mem_map] at h
      obtain ⟨pc, hpc, heq⟩ := h
      rw [Prod.mk.injEq, Option.some_inj, Prod.mk.injEq] at heq
      obtain ⟨hp, hgs, hge⟩ := heq
      refine ⟨a, by simp [grpBodies], pc.2, ?_⟩
      rw [← hgs, ← hge]
      simpa using hpc

lemma mats_alwaysCaps : ∀ (r : RE) (t : List Char) (pos p : Nat)
    (c : Option (Nat × Nat)), alwaysCaps r = true → (p, c) ∈ mats r t pos →
    c.isSome = true := by
  intro r
  induction r with
  | lit s => intro t pos p c hac; exact absurd hac (by simp [alwaysCaps])
  | cls q lo hi => intro t pos p c hac; exact absurd hac (by simp [alwaysCaps])
  | clsStar q => intro t pos p c hac; exact absurd hac (by simp [alwaysCaps])
  | seq a b iha ihb =>
      intro t pos p c hac h
      unfold mats at h
      rw [List.mem_flatMap] at h
      obtain ⟨pc, hpc, h⟩ := h
      rw [List.mem_map] at h
      obtain ⟨qc, hqc, heq⟩ := h
      rw [Prod.mk.injEq] at heq
      obtain ⟨-, hcap⟩ := heq
      rw [← hcap, capJoin_isSome]
      rw [alwaysCaps, Bool.or_eq_true] at hac
      rcases hac with hac | hac
      · rw [iha t pos pc.1 pc.2 hac (by simpa using hpc)]
        simp
      · rw [ihb t pc.1 qc.1 qc.2 hac (by simpa using hqc)]
        simp
  | alt a b iha ihb =>
      intro t pos p c hac h
      rw [alwaysCaps, Bool.and_eq_true] at hac
      unfold mats at h
      rw [List.mem_append] at h
      rcases h with h | h
      · exact iha t pos p c hac.1 h
      · exact ihb t pos p c hac.2 h
  | opt a iha => intro t pos p c hac; exact absurd hac (by simp [alwaysCaps])
  | grp a iha =>
      intro t pos p c hac h
      unfold mats at h
      rw [List.mem_map] at h
      obtain ⟨pc, hpc, heq⟩ := h
      rw [Prod.mk.injEq] at heq
      rw [← heq.2]
      rfl

lemma finditerAux_mem (r : RE) (t : List Char) :
    ∀ (fuel pos : Nat) (m : Nat × Nat × Option (Nat × Nat)),
      m ∈ finditerAux r t pos fuel →
      (m.2.1, m.2.2) ∈ mats r t m.1 ∧ m.1 ≤ t.length := by
  intro fuel
  induction fuel with
  | zero => intro pos m h; exact absurd h (List.not_mem_nil _)
  | succ fuel ih =>
      intro pos m h
      rw [finditerAux] at h
      split at h
      · exact absurd h (List.not_mem_nil _)
      case isFalse hpos =>
        split at h
        case h_1 e c hh =>
          rcases List.mem_cons.mp h with rfl | h
          · exact ⟨List.mem_of_mem_head? (by rw [hh]; rfl), by omega⟩
          · exact ih _ m h
        case h_2 => exact ih _ m h

lemma finditer_mem (r : RE) (t : List Char) (m : Nat × Nat × Option (Nat × Nat))
    (h : m ∈ finditer r t) : (m.2.1, m.2.2) ∈ mats r t m.1 ∧ m.1 ≤ t.length :=
  finditerAux_mem r t _ 0 m h

lemma splitOnC_of_not_mem (sep : Char) :
    ∀ l : List Char, sep ∉ l → splitOnC sep l = [l] := by
  intro l
  induction l with
  | nil => intro; rfl
  | cons c rest ih =>
      intro hmem
      have hc : ¬ (c == sep) = true := by
        simp only [beq_iff_eq]
        intro hc
        exact hmem (hc ▸ List.mem_cons_self _ _)
      have hrest : sep ∉ rest := fun hr => hmem (List.mem_cons_of_mem _ hr)
      simp only [splitOnC, ih hrest]
      rw [if_neg hc]

lemma splitOnC_sep_append (sep : Char) :
    ∀ l1 l2 : List Char, sep ∉ l1 →
      splitOnC sep (l1 ++ sep :: l2) = l1 :: splitOnC sep l2 := by
  intro l1
  induction l1 with
  | nil =>
      intro l2 _
      simp only [List.nil_append, splitOnC]
      rw [if_pos (by simp)]
  | cons c rest ih =>
      intro l2 hmem
      have hc : ¬ (c == sep) = true := by
        simp only [beq_iff_eq]
        intro hc
        exact hmem (hc ▸ List.mem_cons_self _ _)
      have hrest : sep ∉ rest := fun hr => hmem (List.mem_cons_of_mem _ hr)
      have ih' := ih l2 hrest
      simp only [List.cons_append, splitOnC, List.append_eq] at ih' ⊢
      rw [ih', if_neg hc]

lemma splitOnC_two (sep : Char) (l1 l2 : List Char) (h1 : sep ∉ l1) (h2 : sep ∉ l2) :
    splitOnC sep (l1 ++ sep :: l2) = [l1, l2] := by
  rw [splitOnC_sep_append sep l1 l2 h1, splitOnC_of_not_mem sep l2 h2]

lemma not_mem_of_digits (sep : Char) (hsep : sep.isDigit = false) (g : List Char)
    (h : ∀ x ∈ g, x.isDigit = true) : sep ∉ g := by
  intro hc
  rw [h sep hc] at hsep
  exact Bool.noConfusion hsep

lemma parseFloat_allDigits (g : List Char) (h : allDigits g = true) :
    (parseFloat g).isSome = true := by
  rw [allDigits, Bool.and_eq_true, List.all_eq_true] at h
  obtain ⟨hne, hdig⟩ := h
  have hsp := splitOnC_of_not_mem '.' g (not_mem_of_digits '.' (by decide) g hdig)
  simp only [parseFloat, hsp]
  rw [if_pos (by rw [Bool.and_eq_true, List.all_eq_true]; exact ⟨hne, hdig⟩)]
  rfl

lemma parseFloat_dotShape (g : List Char) (h : dotShape g = true) :
    (parseFloat g).isSome = true := by
  unfold dotShape at h
  cases hsp : splitOnC '.' g with
  | nil => rw [hsp] at h; simp at h
  | cons a r =>
      cases r with
      | nil => rw [hsp] at h; simp at h
      | cons b r2 =>
          cases r2 with
          | nil =>
              rw [hsp] at h
              simp only [Bool.and_eq_true] at h
              obtain ⟨⟨⟨ha, hb⟩, hda⟩, hdb⟩ := h
              simp only [parseFloat, hsp]
              rw [if_pos (by rw [Bool.and_eq_true, Bool.and_eq_true]
                             exact ⟨⟨hda, hdb⟩, by rw [ha]; simp⟩)]
              rfl
          | cons c r3 => rw [hsp] at h; simp at h

lemma sliceT_split (t : List Char) (a b c : Nat) (hab : a ≤ b) (hbc : b ≤ c) :
    sliceT t a c = sliceT t a b ++ sliceT t b c := by
  unfold sliceT
  rw [List.drop_take, List.drop_take, List.drop_take]
  have hd : t.drop b = (t.drop a).drop (b - a) := by
    rw [List.drop_drop]
    congr 1
    omega
  rw [hd]
  have hsum : c - a = (b - a) + (c - b) := by omega
  rw [hsum, List.take_add]

lemma mats_seq_decomp (a b : RE) (t : List Char) (pos p : Nat)
    (c : Option (Nat × Nat)) (h : (p, c) ∈ mats (.seq a b) t pos) :
    ∃ p1 c1 c2, (p1, c1) ∈ mats a t pos ∧ (p, c2) ∈ mats b t p1 ∧
      c = capJoin c1 c2 := by
  unfold mats at h
  rw [List.mem_flatMap] at h
  obtain ⟨pc, hpc, h⟩ := h
  rw [List.mem_map] at h
  obtain ⟨qc, hqc, heq⟩ := h
  rw [Prod.mk.injEq] at heq
  exact ⟨pc.1, pc.2, qc.2, by simpa using hpc,
    by rw [← heq.1]; simpa using hqc, heq.2.symm⟩

lemma mats_cls_pos_le (q : Char → Bool) (lo hi : Nat) (t : List Char)
    (pos p : Nat) (c : Option (Nat × Nat)) (hlo : 1 ≤ lo)
    (h : (p, c) ∈ mats (.cls q lo hi) t pos) : pos ≤ t.length := by
  unfold mats at h
  rw [List.mem_map] at h
  obtain ⟨i, hi_mem, -⟩ := h
  rw [List.mem_range] at hi_mem
  have h1 : (((t.drop pos).take hi).takeWhile q).length ≤ ((t.drop pos).take hi).length :=
    takeWhile_length_le q _
  rw [List.length_take, List.length_drop] at h1
  omega

lemma digBody_slice (lo hi : Nat) (t : List Char) (gs ge : Nat)
    (c' : Option (Nat × Nat)) (hlo : 1 ≤ lo)
    (h : (ge, c') ∈ mats (digBody lo hi) t gs) :
    (∀ x ∈ sliceT t gs ge, x.isDigit = true) ∧ (sliceT t gs ge).length = ge - gs ∧
      gs < ge ∧ ge ≤ t.length := by
  have hpos : gs ≤ t.length := mats_cls_pos_le isDigitC lo hi t gs ge c' hlo h
  obtain ⟨-, k, rfl, hlo', -, hle, hlen, hdig⟩ :=
    mats_cls isDigitC lo hi t gs ge c' hpos h
  exact ⟨hdig, by omega, by omega, hle⟩

lemma digBody_shape (lo hi : Nat) (t : List Char) (gs ge : Nat)
    (c' : Option (Nat × Nat)) (hlo : 1 ≤ lo)
    (h : (ge, c') ∈ mats (digBody lo hi) t gs) :
    allDigits (sliceT t gs ge) = true := by
  obtain ⟨hdig, hlen, hlt, -⟩ := digBody_slice lo hi t gs ge c' hlo h
  rw [allDigits, Bool.and_eq_true, List.all_eq_true]
  refine ⟨?_, hdig⟩
  simp only [Bool.not_eq_true']
  rw [← Bool.not_eq_true, List.isEmpty_iff]
  intro hnil
  rw [hnil] at hlen
  simp at hlen
  omega

lemma dotBody_shape (a1 a2 b1 b2 : Nat) (t : List Char) (gs ge : Nat)
    (c' : Option (Nat × Nat)) (h1 : 1 ≤ a1) (h2 : 1 ≤ b1)
    (h : (ge, c') ∈ mats (dotBody a1 a2 b1 b2) t gs) :
    dotShape (sliceT t gs ge) = true := by
  obtain ⟨p1, cx, cy, hx, hy, -⟩ := mats_seq_decomp _ _ t gs ge c' h
  obtain ⟨p2, cz, cw, hz, hw, -⟩ := mats_seq_decomp _ _ t p1 ge cy hy
  obtain ⟨hdig1, hlen1, hlt1, hle1⟩ := digBody_slice a1 a2 t gs p1 cx h1 hx
  obtain ⟨-, hp2, hdot, hle2⟩ := mats_lit ['.'] t p1 p2 cz hle1 hz
  obtain ⟨hdig2, hlen2, hlt2, hle3⟩ := digBody_slice b1 b2 t p2 ge cw h2 hw
  have hsplit : sliceT t gs ge = sliceT t gs p1 ++ (sliceT t p1 p2 ++ sliceT t p2 ge) := by
    rw [← sliceT_split t p1 p2 ge (by omega) (by omega),
        ← sliceT_split t gs p1 ge (by omega) (by omega)]
  rw [hsplit, hdot, List.singleton_append]
  rw [dotShape, splitOnC_two '.' (sliceT t gs p1) (sliceT t p2 ge)
      (not_mem_of_digits '.' (by decide) _ hdig1)
      (not_mem_of_digits '.' (by decide) _ hdig2)]
  simp only [Bool.and_eq_true, Bool.not_eq_true', List.all_eq_true]
  have hne1 : (sliceT t gs p1).isEmpty = false := by
    rw [← Bool.not_eq_true, List.isEmpty_iff]
    intro hnil
    rw [hnil] at hlen1
    simp at hlen1
    omega
  have hne2 : (sliceT t p2 ge).isEmpty = false := by
    rw [← Bool.not_eq_true, List.isEmpty_iff]
    intro hnil
    rw [hnil] at hlen2
    simp at hlen2
    omega
  exact ⟨⟨⟨hne1, hne2⟩, hdig1⟩, hdig2⟩

lemma slashBody_shape (t : List Char) (gs ge : Nat) (c' : Option (Nat × Nat))
    (h : (ge, c') ∈ mats slashBody t gs) :
    slashShape (sliceT t gs ge) = true ∧ hasSlash (sliceT t gs ge) = true := by
  obtain ⟨p1, cx, cy, hx, hy, -⟩ := mats_seq_decomp _ _ t gs ge c' h
  obtain ⟨p2, cz, cw, hz, hw, -⟩ := mats_seq_decomp _ _ t p1 ge cy hy
  obtain ⟨hdig1, hlen1, hlt1, hle1⟩ := digBody_slice 2 3 t gs p1 cx (by omega) hx
  obtain ⟨-, hp2, hdot, hle2⟩ := mats_lit ['/'] t p1 p2 cz hle1 hz
  obtain ⟨hdig2, hlen2, hlt2, hle3⟩ := digBody_slice 2 3 t p2 ge cw (by omega) hw
  have hsplit : sliceT t gs ge = sliceT t gs p1 ++ (sliceT t p1 p2 ++ sliceT t p2 ge) := by
    rw [← sliceT_split t p1 p2 ge (by omega) (by omega),
        ← sliceT_split t gs p1 ge (by omega) (by omega)]
  rw [hsplit, hdot, List.singleton_append]
  have hne1 : (sliceT t gs p1).isEmpty = false := by
    rw [← Bool.not_eq_true, List.isEmpty_iff]
    intro hnil
    rw [hnil] at hlen1
    simp at hlen1
    omega
  have hne2 : (sliceT t p2 ge).isEmpty = false := by
    rw [← Bool.not_eq_true, List.isEmpty_iff]
    intro hnil
    rw [hnil] at hlen2
    simp at hlen2
    omega
  constructor
  · rw [slashShape, splitOnC_two '/' (sliceT t gs p1) (sliceT t p2 ge)
        (not_mem_of_digits '/' (by decide) _ hdig1)
        (not_mem_of_digits '/' (by decide) _ hdig2)]
    simp only [Bool.and_eq_true, Bool.not_eq_true', List.all_eq_true]
    exact ⟨⟨⟨hne1, hne2⟩, hdig1⟩, hdig2⟩
  · rw [hasSlash, List.any_eq_true]
    exact ⟨'/', by simp, by simp⟩

lemma mkLabEntity_numeric (t : List Char) (rule : LabRule)
    (m : Nat × Nat × Option (Nat × Nat)) :
    (mkLabEntity t rule m).numericValue =
      (if hasSlash (groupSlice t m) then none else parseFloat (groupSlice t m)) ∧
    ((mkLabEntity t rule m).numericValue.isSome ↔ (mkLabEntity t rule m).unit.isSome) := by
  unfold mkLabEntity
  by_cases hs : hasSlash (groupSlice t m) = true
  · rw [if_pos hs, if_pos hs]
    simp
  · rw [if_neg hs, if_neg hs]
    cases hp : parseFloat (groupSlice t m) <;> simp

lemma groupSlice_eq (t : List Char) (m : Nat × Nat × Option (Nat × Nat))
    (gs ge : Nat) (hg : m.2.2 = some (gs, ge)) :
    groupSlice t m = sliceT t gs ge := by
  unfold groupSlice
  rw [hg]

lemma mkLabEntity_spans (t : List Char) (rule : LabRule)
    (m : Nat × Nat × Option (Nat × Nat)) :
    (mkLabEntity t rule m).spans = [⟨m.1, m.2.1⟩] := by
  unfold mkLabEntity
  by_cases hs : hasSlash (groupSlice t m) = true
  · rw [if_pos hs]
  · rw [if_neg hs]
    cases parseFloat (groupSlice t m) <;> rfl

lemma c10_conclude (t : List Char) (rule : LabRule)
    (m : Nat × Nat × Option (Nat × Nat)) (gs ge : Nat)
    (hg : m.2.2 = some (gs, ge)) (hshape : groupShape (sliceT t gs ge) = true)
    (hparse : hasSlash (sliceT t gs ge) = false →
      (parseFloat (sliceT t gs ge)).isSome = true) :
    ∃ gs' ge', m.2.2 = some (gs', ge') ∧ groupShape (sliceT t gs' ge') = true ∧
      (hasSlash (sliceT t gs' ge') = false →
        (parseFloat (sliceT t gs' ge')).isSome = true ∧
        (mkLabEntity t rule m).numericValue.isSome = true ∧
        (mkLabEntity t rule m).unit.isSome = true) := by
  refine ⟨gs, ge, hg, hshape, fun hs => ?_⟩
  have hp := hparse hs
  have hgs := groupSlice_eq t m gs ge hg
  obtain ⟨hnum, hiff⟩ := mkLabEntity_numeric t rule m
  rw [hgs] at hnum
  rw [if_neg (by simp [hs])] at hnum
  have h1 : (mkLabEntity t rule m).numericValue.isSome = true := by
    rw [hnum]
    exact hp
  exact ⟨hp, h1, hiff.mp h1⟩

lemma c10_dig (t : List Char) (rule : LabRule)
    (m : Nat × Nat × Option (Nat × Nat)) (gs ge lo hi : Nat)
    (c' : Option (Nat × Nat)) (hg : m.2.2 = some (gs, ge)) (hlo : 1 ≤ lo)
    (hbm : (ge, c') ∈ mats (digBody lo hi) t gs) :
    ∃ gs' ge', m.2.2 = some (gs', ge') ∧ groupShape (sliceT t gs' ge') = true ∧
      (hasSlash (sliceT t gs' ge') = false →
        (parseFloat (sliceT t gs' ge')).isSome = true ∧
        (mkLabEntity t rule m).numericValue.isSome = true ∧
        (mkLabEntity t rule m).unit.isSome = true) := by
  have hsh := digBody_shape lo hi t gs ge c' hlo hbm
  exact c10_conclude t rule m gs ge hg (by rw [groupShape, hsh]; rfl)
    (fun _ => parseFloat_allDigits _ hsh)

lemma c10_dot (t : List Char) (rule : LabRule)
    (m : Nat × Nat × Option (Nat × Nat)) (gs ge a1 a2 b1 b2 : Nat)
    (c' : Option (Nat × Nat)) (hg : m.2.2 = some (gs, ge)) (h1 : 1 ≤ a1)
    (h2 : 1 ≤ b1) (hbm : (ge, c') ∈ mats (dotBody a1 a2 b1 b2) t gs) :
    ∃ gs' ge', m.2.2 = some (gs', ge') ∧ groupShape (sliceT t gs' ge') = true ∧
      (hasSlash (sliceT t gs' ge') = false →
        (parseFloat (sliceT t gs' ge')).isSome = true ∧
        (mkLabEntity t rule m).numericValue.isSome = true ∧
        (mkLabEntity t rule m).unit.isSome = true) := by
  have hsh := dotBody_shape a1 a2 b1 b2 t gs ge c' h1 h2 hbm
  exact c10_conclude t rule m gs ge hg (by simp [groupShape, hsh])
    (fun _ => parseFloat_dotShape _ hsh)

lemma c10_slash (t : List Char) (rule : LabRule)
    (m : Nat × Nat × Option (Nat × Nat)) (gs ge : Nat)
    (c' : Option (Nat × Nat)) (hg : m.2.2 = some (gs, ge))
    (hbm : (ge, c') ∈ mats slashBody t gs) :
    ∃ gs' ge', m.2.2 = some (gs', ge') ∧ groupShape (sliceT t gs' ge') = true ∧
      (hasSlash (sliceT t gs' ge') = false →
        (parseFloat (sliceT t gs' ge')).isSome = true ∧
        (mkLabEntity t rule m).numericValue.isSome = true ∧
        (mkLabEntity t rule m).unit.isSome = true) := by
  obtain ⟨hsh, hslash⟩ := slashBody_shape t gs ge c' hbm
  exact c10_conclude t rule m gs ge hg (by simp [groupShape, hsh])
    (fun habs => absurd hslash (by simp [habs]))

/-- C10: for every text and every match of one of the nine lab patterns, the
first capture group is present and its text is a digit run, a
`digits.digits` decimal, or a `digits/digits` compound; hence whenever the
group has no `/`, `float()` succeeds and the entity gets both
`numericValue` and `unit` — the `ValueError` branch is unreachable. -/
theorem lab_group_shape (t : List Char) (rule : LabRule)
    (hr : rule ∈ LAB_PATTERNS) (m : Nat × Nat × Option (Nat × Nat))
    (hm : m ∈ finditer rule.pattern t) :
    ∃ gs ge, m.2.2 = some (gs, ge) ∧ groupShape (sliceT t gs ge) = true ∧
      (hasSlash (sliceT t gs ge) = false →
        (parseFloat (sliceT t gs ge)).isSome = true ∧
        (mkLabEntity t rule m).numericValue.isSome = true ∧
        (mkLabEntity t rule m).unit.isSome = true) := by
  obtain ⟨hmats, hpos⟩ := finditer_mem rule.pattern t m hm
  have hAC : alwaysCaps rule.pattern = true :=
    (by decide : ∀ r ∈ LAB_PATTERNS, alwaysCaps r.pattern = true) rule hr
  have hcap : m.2.2.isSome = true :=
    mats_alwaysCaps rule.pattern t m.1 m.2.1 m.2.2 hAC hmats
  obtain ⟨g0, hg⟩ := Option.isSome_iff_exists.mp hcap
  obtain ⟨gs, ge⟩ := g0
  rw [hg] at hmats
  obtain ⟨b, hb, c', hbm⟩ := mats_cap rule.pattern t m.1 m.2.1 gs ge hmats
  simp only [LAB_PATTERNS, List.mem_cons, List.not_mem_nil, or_false] at hr
  rcases hr with rfl | rfl | rfl | rfl | rfl | rfl | rfl | rfl | rfl
  · have hb' : b = digBody 1 3 :=
      List.mem_singleton.mp (show b ∈ [digBody 1 3] from hb)
    subst hb'
    exact c10_dig t _ m gs ge 1 3 c' hg (by omega) hbm
  · have hb' : b = digBody 1 3 :=
      List.mem_singleton.mp (show b ∈ [digBody 1 3] from hb)
    subst hb'
    exact c10_dig t _ m gs ge 1 3 c' hg (by omega) hbm
  · have hb' : b = digBody 1 3 :=
      List.mem_singleton.mp (show b ∈ [digBody 1 3] from hb)
    subst hb'
    exact c10_dig t _ m gs ge 1 3 c' hg (by omega) hbm
  · have hb' : b = dotBody 1 1 1 2 :=
      List.mem_singleton.mp (show b ∈ [dotBody 1 1 1 2] from hb)
    subst hb'
    exact c10_dot t _ m gs ge 1 1 1 2 c' hg (by omega) (by omega) hbm
  · have hb' : b = digBody 1 3 :=
      List.mem_singleton.mp (show b ∈ [digBody 1 3] from hb)
    subst hb'
    exact c10_dig t _ m gs ge 1 3 c' hg (by omega) hbm
  · have hb' : b = digBody 2 3 :=
      List.mem_singleton.mp (show b ∈ [digBody 2 3] from hb)
    subst hb'
    exact c10_dig t _ m gs ge 2 3 c' hg (by omega) hbm
  · have hb' : b = digBody 1 2 :=
      List.mem_singleton.mp (show b ∈ [digBody 1 2] from hb)
    subst hb'
    exact c10_dig t _ m gs ge 1 2 c' hg (by omega) hbm
  · have hb' : b = slashBody :=
      List.mem_singleton.mp (show b ∈ [slashBody] from hb)
    subst hb'
    exact c10_slash t _ m gs ge c' hg hbm
  · have hb' : b = dotBody 2 2 1 1 :=
      List.mem_singleton.mp (show b ∈ [dotBody 2 2 1 1] from hb)
    subst hb'
    exact c10_dot t _ m gs ge 2 2 1 1 c' hg (by omega) (by omega) hbm

/-- C10 witness: the first rule and the concrete match of `"SpO2: 95%"`
satisfy the hypotheses; the capture span is present. -/
theorem lab_group_shape_witness :
    spo2Rule ∈ LAB_PATTERNS ∧
    ((0, 9, some (6, 8)) : Nat × Nat × Option (Nat × Nat)) ∈
      finditer spo2Rule.pattern ("SpO2: 95%".toList) ∧
    ∃ gs ge, ((0, 9, some (6, 8)) : Nat × Nat × Option (Nat × Nat)).2.2 =
      some (gs, ge) := by
  refine ⟨by unfold LAB_PATTERNS; exact List.mem_cons_self _ _, by decide, ?_⟩
  obtain ⟨gs, ge, hg, -, -⟩ := lab_group_shape ("SpO2: 95%".toList) spo2Rule
    (by unfold LAB_PATTERNS; exact List.mem_cons_self _ _)
    (0, 9, some (6, 8)) (by decide)
  exact ⟨gs, ge, hg⟩

/-- C5: in every entity `extract_lab_values` produces, `numericValue` and
`unit` are present or absent together; and the entity comes from a rule of
`LAB_PATTERNS` and a match of that rule whose first capture group
(`groupSlice t m`, i.e. `match.group(1)`) governs the numeric fields: they
are present exactly when that group has no `/` and parses as a number, and a
parse failure only omits the numeric fields — the entity itself is kept.
In the compound `"BP: 120/80"` scenario the raw text is captured with both
numeric fields absent. -/
theorem lab_numeric_pairing (t : List Char) :
    (∀ e ∈ extract_lab_values t,
      (e.numericValue.isSome ↔ e.unit.isSome) ∧
      ∃ rule ∈ LAB_PATTERNS, ∃ m ∈ finditer rule.pattern t,
        e = mkLabEntity t rule m ∧
        e.numericValue =
          (if hasSlash (groupSlice t m) then none else parseFloat (groupSlice t m)) ∧
        (e.numericValue.isSome ↔
          (hasSlash (groupSlice t m) = false ∧
            (parseFloat (groupSlice t m)).isSome = true))) ∧
    extract_lab_values ("BP: 120/80".toList) = [bpEntity] := by
  constructor
  · intro e he
    unfold extract_lab_values at he
    rw [List.mem_flatMap] at he
    obtain ⟨rule, hrule, he⟩ := he
    rw [List.mem_map] at he
    obtain ⟨m, hm, rfl⟩ := he
    obtain ⟨hnum, hiff⟩ := mkLabEntity_numeric t rule m
    refine ⟨hiff, rule, hrule, m, hm, rfl, hnum, ?_, ?_⟩
    · intro hsome
      rw [hnum] at hsome
      by_cases hs : hasSlash (groupSlice t m) = true
      · rw [if_pos hs] at hsome
        simp at hsome
      · rw [if_neg hs] at hsome
        exact ⟨by simpa using hs, hsome⟩
    · rintro ⟨hs, hp⟩
      rw [hnum, if_neg (by simp [hs])]
      exact hp
  · decide

/-- C6 counterexample: for the input `"BP: 120/80"` (length 10) the single
output entity's span is `{start := 0, end := 10}`: its end offset equals the
text length, so it is not within `[0, len(text))` as the claim requires. -/
theorem span_end_at_text_length :
    ((extract_clinical_entities emptyPipeline ("BP: 120/80".toList)).map
      (fun e => e.spans.map (fun sp => sp.stop))) = [[10]] ∧
    ("BP: 120/80".toList).length = 10 ∧ ¬ (10 < 10) := by
  refine ⟨by decide, by decide, by decide⟩

/-- C6 amended: provided the external pipeline's spans satisfy
`start < end ≤ len(text)`, every entity in the final output satisfies
`start < end` and `end ≤ len(text)` (the end offset is exclusive, so it may
equal the length; the original `end < len(text)` fails at a match touching
the end of the text). -/
theorem entities_in_bounds (pipeline : List Char → List ExtSpan)
    (t : List Char)
    (h : ∀ s ∈ pipeline t, s.start_char < s.end_char ∧ s.end_char ≤ t.length) :
    ∀ e ∈ extract_clinical_entities pipeline t, ∀ sp ∈ e.spans,
      sp.start < sp.stop ∧ sp.stop ≤ t.length := by
  intro e he sp hsp
  have he' : e ∈ (pipeline t).map (normalizeSpan t) ++ extract_lab_values t :=
    (dedup_sublist [] _).subset he
  rw [List.mem_append] at he'
  rcases he' with he' | he'
  · rw [List.mem_map] at he'
    obtain ⟨s, hs, rfl⟩ := he'
    have hsp' : sp = ⟨s.start_char, s.end_char⟩ := by
      simpa [normalizeSpan] using hsp
    rw [hsp']
    exact h s hs
  · unfold extract_lab_values at he'
    rw [List.mem_flatMap] at he'
    obtain ⟨rule, hrule, he'⟩ := he'
    rw [List.mem_map] at he'
    obtain ⟨m, hm, rfl⟩ := he'
    have hsp' : sp = ⟨m.1, m.2.1⟩ := by
      rw [mkLabEntity_spans] at hsp
      exact List.mem_singleton.mp hsp
    obtain ⟨hmats, hpos⟩ := finditer_mem rule.pattern t m hm
    obtain ⟨h1, h2⟩ := mats_bounds rule.pattern t m.1 m.2.1 m.2.2 hpos hmats
    have hmin : 1 ≤ minLen rule.pattern :=
      (by decide : ∀ r ∈ LAB_PATTERNS, 1 ≤ minLen r.pattern) rule hrule
    rw [hsp']
    refine ⟨?_, ?_⟩
    · show m.1 < m.2.1
      omega
    · show m.2.1 ≤ t.length
      exact h2

/-- C6 witness: the `"BP: 120/80"` fixture instantiates the hypothesis (the
modelled pipeline returns no spans) and the conclusion at the BP entity's
span `{0, 10}`. -/
theorem entities_in_bounds_witness :
    (∀ s ∈ emptyPipeline ("BP: 120/80".toList),
      s.start_char < s.end_char ∧ s.end_char ≤ ("BP: 120/80".toList).length) ∧
    ((0 : Nat) < 10 ∧ 10 ≤ ("BP: 120/80".toList).length) := by
  refine ⟨by decide, ?_⟩
  exact entities_in_bounds emptyPipeline ("BP: 120/80".toList) (by decide)
    bpEntity (by decide) ⟨0, 10⟩ (by decide)

/-- C3 counterexample: on the section 8 scenario text the sole `8867-4`
(heart-rate) entity of the output carries assertion `negated`, not the
`affirmed` the claim requires — `denies ` lies within the 60-character
window before offset 27. -/
theorem scenario_hr_not_affirmed :
    ((extract_clinical_entities scenarioPipeline scenarioText).filter
        (fun e => e.code == some "8867-4")).map (fun e => e.assertion) =
      ["negated"] ∧ ("negated" : String) ≠ "affirmed" := by
  constructor
  · decide
  · decide

/-- C4: merge/dedup concatenates the NLP entities before the lab entities,
keys each entity by the triple `(lower-cased text, type, first span start)`
(`entityKey`), keeps exactly the first occurrence of each key (the `find?`
characterisation), drops every later occurrence whole, preserves the
concatenation order of what it keeps (`Sublist`), never loses a key, and
never conflates two entities with different keys (pairwise-distinct keys in
the output). -/
theorem merge_dedup_correct (nlpEntities labEntities : List Entity)
    (h : ∀ e ∈ nlpEntities ++ labEntities, e.spans ≠ []) :
    (mergeEntities nlpEntities labEntities).Sublist (nlpEntities ++ labEntities) ∧
    (∀ e, e ∈ mergeEntities nlpEntities labEntities ↔
        (nlpEntities ++ labEntities).find?
          (fun x => decide (entityKey x = entityKey e)) = some e) ∧
    (∀ e ∈ nlpEntities ++ labEntities,
        ∃ x ∈ mergeEntities nlpEntities labEntities, entityKey x = entityKey e) ∧
    (mergeEntities nlpEntities labEntities).Pairwise
      (fun x y => entityKey x ≠ entityKey y) := by
  refine ⟨dedup_sublist [] _, fun e => ?_, fun e he => ?_, dedup_keys_distinct [] _⟩
  · rw [mergeEntities, dedup_mem_iff]
    simp
  · exact dedup_key_reached e _ [] he (List.not_mem_nil _)

/-- C4 witness: two concrete entities with the same text and type at
different offsets (different keys) instantiate the hypotheses and both
survive the merge. -/
theorem merge_dedup_correct_witness :
    (∀ e ∈ [sampleEntityA] ++ [sampleEntityB], e.spans ≠ []) ∧
    (mergeEntities [sampleEntityA] [sampleEntityB]).Sublist
      ([sampleEntityA] ++ [sampleEntityB]) := by
  refine ⟨by decide, ?_⟩
  exact (merge_dedup_correct [sampleEntityA] [sampleEntityB] (by decide)).1

/-- C3 amended: on `"Patient denies chest pain. HR: 110. History of COPD."`
the output is the `chest pain` problem entity with assertion `negated`, the
`COPD` problem entity with temporality `historical`, and the `HR: 110` lab
entity with code `8867-4`, numericValue `110`, unit `/min` — whose assertion
is `negated` (not `affirmed`), since the 60-character window before the
match still contains `denies `. -/
theorem scenario_output :
    extract_clinical_entities scenarioPipeline scenarioText =
      [chestPainEntity, copdEntity, hrEntity] ∧
    hrEntity.code = some "8867-4" ∧ hrEntity.numericValue = some 110 ∧
    hrEntity.unit = some "/min" ∧ hrEntity.assertion = "negated" ∧
    chestPainEntity.type = "problem" ∧ chestPainEntity.assertion = "negated" ∧
    copdEntity.type = "problem" ∧ copdEntity.temporality = "historical" := by
  refine ⟨by decide, by decide, by decide, by decide, by decide, by decide,
    by decide, by decide, by decide⟩

end CTakes
